import Mathlib

/-!
# skycfg: protobuf message types as scripting values

A shallow embedding of `go/skycfg/proto_message_type.go`: the resolver
`newMessageType`, the type object `skyProtoMessageType` with its `Name`,
`String`, `Attr` and `Call` methods, and the library routines the file calls
(`fmt.Sprintf` with `%q`, `skylark.UnpackPositionalArgs`, `skylark.UnpackArgs`).

Go strings are embedded as Lean strings (sequences of Unicode scalar values).
Mutable Go state is made explicit: every operation returns its result together
with the list of effects it performed, in order.
-/

set_option autoImplicit false

namespace Skycfg

/-! ## Values and errors -/

/-- Scripting values (`skylark.Value`); construction never inspects them, it
only hands them to `SetField`. -/
inductive Value where
  | none
  | bool (b : Bool)
  | int (i : Int)
  | str (s : String)
  deriving DecidableEq, Repr

/-- The diagnostics of skylark's argument unpacking; each is rendered by the
library as `<fnname>: <text>`. -/
inductive ArgFault where
  /-- Text `unexpected keyword arguments`. -/
  | unexpectedKeywords
  /-- Text `got <got> arguments, want <want>`. -/
  | arity (got want : Nat)
  /-- Text `got <got> arguments, want at most <want>`. -/
  | atMost (got want : Nat)
  /-- Text `unexpected keyword argument <name>`. -/
  | unexpectedKeyword (name : String)
  /-- Text `got multiple values for keyword argument <name>`. -/
  | multipleValues (name : String)
  /-- Text `missing argument for <name>`. -/
  | missing (name : String)
  deriving DecidableEq, Repr

/-- Go `error` values. `errorf` is an error built by `fmt.Errorf` in this
file and carries its exact text; `argument` is an error built by skylark's
argument unpacking for the function `fnname`; `external` is an error value
handed back by a collaborator (a custom registry, or `SetField`). -/
inductive Error where
  | errorf (text : String)
  | argument (fnname : String) (fault : ArgFault)
  | external (code : String)
  deriving DecidableEq, Repr

/-! ## `fmt` verbs -/

/-- The double quote character. -/
def dquote : Char := Char.ofNat 34

/-- The backslash character. -/
def backslash : Char := Char.ofNat 92

/-- Lower-case hexadecimal digit of `n % 16`. -/
def hexDigit (n : Nat) : Char :=
  let d := n % 16
  if d < 10 then Char.ofNat (48 + d) else Char.ofNat (87 + d)

/-- The `width` low hexadecimal digits of `n`, most significant first. -/
def hexFixed : Nat → Nat → List Char
  | 0, _ => []
  | w + 1, n => hexFixed w (n / 16) ++ [hexDigit n]

/-- `strconv.IsPrint`: decided inline up to U+00FF, by the Unicode tables of
the Go runtime (`tableIsPrint`, not part of the source) above. -/
def IsPrint (tableIsPrint : Char → Bool) (c : Char) : Bool :=
  let r := c.toNat
  if r ≤ 0xFF then
    if 0x20 ≤ r ∧ r < 0x7F then true
    else if 0xA1 ≤ r then r != 0xAD
    else false
  else tableIsPrint c

/-- `strconv.appendEscapedRune` with a double quote as the quote character,
as used by `strconv.Quote` (the `%q` verb), following current Go releases. A
Lean character is always a valid rune, so the replacement of invalid runes
does not arise. -/
def appendEscapedRune (tableIsPrint : Char → Bool) (c : Char) : List Char :=
  if c = dquote ∨ c = backslash then [backslash, c]
  else if IsPrint tableIsPrint c then [c]
  else
    let r := c.toNat
    if r = 7 then [backslash, 'a']
    else if r = 8 then [backslash, 'b']
    else if r = 12 then [backslash, 'f']
    else if r = 10 then [backslash, 'n']
    else if r = 13 then [backslash, 'r']
    else if r = 9 then [backslash, 't']
    else if r = 11 then [backslash, 'v']
    else if r < 0x20 ∨ r = 0x7F then [backslash, 'x'] ++ hexFixed 2 r
    else if r < 0x10000 then [backslash, 'u'] ++ hexFixed 4 r
    else [backslash, 'U'] ++ hexFixed 8 r

/-- `strconv.Quote`, the rendering of a string under the `%q` verb. -/
def goQuote (tableIsPrint : Char → Bool) (s : String) : String :=
  String.mk ([dquote] ++ s.data.flatMap (appendEscapedRune tableIsPrint) ++ [dquote])

/-! ## Descriptors, reflection types and registries -/

/-- `descriptor_pb.FileDescriptorProto`, reduced to the field the file reads. -/
structure FileDescriptorProto where
  Package : Option String
  deriving DecidableEq, Repr

/-- `descriptor_pb.DescriptorProto`, reduced to the field the file reads. -/
structure DescriptorProto where
  Name : Option String
  deriving DecidableEq, Repr

/-- `(*FileDescriptorProto).GetPackage`: the empty string for a nil receiver
or an unset field. -/
def GetPackage : Option FileDescriptorProto → String
  | some ⟨some p⟩ => p
  | _ => ""

/-- `(*DescriptorProto).GetName`: the empty string for a nil receiver or an
unset field. -/
def GetName : Option DescriptorProto → String
  | some ⟨some n⟩ => n
  | _ => ""

/-- `reflect.Kind`, as far as `newMessageType` distinguishes kinds. -/
inductive Kind where
  | Ptr
  | Struct
  | Other
  deriving DecidableEq, Repr

/-- A value implementing `descriptor.Message`: the message together with what
`descriptor.ForMessage` extracts from it. -/
structure DescriptorMessage (M : Type) where
  msg : M
  fileDesc : Option FileDescriptorProto
  msgDesc : Option DescriptorProto

/-- A `reflect.Type`: its `%v` rendering, its kind, and the outcome of
`reflect.New(goType.Elem()).Interface().(descriptor.Message)`, which is
`none` when the type assertion fails. -/
structure GoType (M : Type) where
  text : String
  Kind : Kind
  zeroElem : Option (DescriptorMessage M)

/-- The `unstableProtoRegistry` interface: a lookup returning the Go pair
`(reflect.Type, error)`, either of which may be nil. -/
structure unstableProtoRegistry (M : Type) where
  UnstableProtoMessageType : String → Option (GoType M) × Option Error

/-- What the process provides: the process-wide table behind
`proto.MessageType` and the Unicode tables behind `strconv.IsPrint`. -/
structure Process (M : Type) where
  MessageType : String → Option (GoType M)
  tableIsPrint : Char → Bool

/-- The struct `skyProtoMessageType`. -/
structure skyProtoMessageType (M : Type) where
  registry : Option (unstableProtoRegistry M)
  fileDesc : Option FileDescriptorProto
  msgDesc : Option DescriptorProto
  emptyMsg : M

/-- Effects performed by the operations, recorded in execution order. -/
inductive Event where
  /-- The registry (or the process-wide table) was asked for a name. -/
  | lookup (name : String)
  /-- Step `reflect.New(goType.Elem())` with the `descriptor.Message` assertion. -/
  | reflectNew
  /-- Step `descriptor.ForMessage`. -/
  | forMessage
  /-- Step `proto.Clone` of the template. -/
  | clone
  /-- Step `skylark.UnpackArgs`: the keyword arguments were parsed. -/
  | unpackArgs
  /-- Step `wrapper.SetField(name, value)`. -/
  | setField (name : String) (value : Value)
  deriving DecidableEq, Repr

variable {M : Type}

/-! ## The type object -/

/-- The method `(*skyProtoMessageType).Name`. -/
def skyProtoMessageType.Name (mt : skyProtoMessageType M) : String :=
  if GetPackage mt.fileDesc = "" then
    GetName mt.msgDesc
  else
    GetPackage mt.fileDesc ++ "." ++ GetName mt.msgDesc

/-- The method `(*skyProtoMessageType).Type`. -/
def skyProtoMessageType.Type (_mt : skyProtoMessageType M) : String := "proto.MessageType"

/-- The lookup that opens `newMessageType` (its first ten lines): the
process-wide table for the nil registry; for a custom registry its own lookup,
whose error, when there is one, is the outcome. -/
def lookupGoType (P : Process M) (registry : Option (unstableProtoRegistry M))
    (name : String) : Except Error (Option (GoType M)) :=
  match registry with
  | none => .ok (P.MessageType name)
  | some r =>
    match r.UnstableProtoMessageType name with
    | (_, some err) => .error err
    | (goType, none) => .ok goType

/-- The function `newMessageType`. -/
def newMessageType (P : Process M) (registry : Option (unstableProtoRegistry M))
    (name : String) : Except Error (skyProtoMessageType M) × List Event :=
  match lookupGoType P registry name with
  | .error err => (.error err, [.lookup name])
  | .ok none =>
    (.error (.errorf ("Protobuf message type " ++ goQuote P.tableIsPrint name ++ " not found")),
      [.lookup name])
  | .ok (some goType) =>
    if goType.Kind ≠ Kind.Ptr then
      (.error (.errorf ("InternalError: " ++ goType.text ++
        " is not a generated proto.Message")), [.lookup name])
    else
      match goType.zeroElem with
      | none =>
        (.error (.errorf ("InternalError: " ++ goType.text ++
          " is not a generated proto.Message")), [.lookup name, .reflectNew])
      | some emptyMsg =>
        let mt : skyProtoMessageType M :=
          { registry := registry
            fileDesc := emptyMsg.fileDesc
            msgDesc := emptyMsg.msgDesc
            emptyMsg := emptyMsg.msg }
        if name ≠ mt.Name then
          (.error (.errorf ("InternalError: " ++ goType.text ++
            " has unexpected protobuf type name " ++ goQuote P.tableIsPrint mt.Name ++
            " (wanted " ++ goQuote P.tableIsPrint name ++ ")")),
            [.lookup name, .reflectNew, .forMessage])
        else
          (.ok mt, [.lookup name, .reflectNew, .forMessage])

/-- The method `(*skyProtoMessageType).Attr`. -/
def skyProtoMessageType.Attr (P : Process M) (mt : skyProtoMessageType M) (attrName : String) :
    Except Error (skyProtoMessageType M) × List Event :=
  newMessageType P mt.registry (mt.Name ++ "." ++ attrName)

/-- The method `(*skyProtoMessageType).AttrNames`. -/
def skyProtoMessageType.AttrNames (_mt : skyProtoMessageType M) : List String := []

/-! ## Argument unpacking (skylark)

`UnpackPositionalArgs` and `UnpackArgs` belong to the skylark interpreter
library, which `Call` imports; they are embedded here from the library's
behaviour, for the parameter shapes `Call` uses (no parameter variables in the
first call, only `*skylark.Value` pointers in the second).
-/

/-- `skylark.UnpackPositionalArgs(fnname, args, kwargs, min)` called without
parameter variables, so that the largest accepted number of arguments is 0:
keyword arguments are refused, then too few, then too many arguments. -/
def UnpackPositionalArgs (fnname : String) (args : List Value)
    (kwargs : List (String × Value)) (min : Nat) : Option Error :=
  if kwargs.length > 0 then
    some (.argument fnname .unexpectedKeywords)
  else if args.length < min then
    some (.argument fnname (.arity args.length min))
  else if args.length > 0 then
    some (.argument fnname (.arity args.length 0))
  else
    none

/-- One `name, pointer` pair handed to `skylark.UnpackArgs`: the parameter
name without its trailing question mark, and whether the question mark was
there. The pointer is the position of the pair: pair `i` writes cell `i`. -/
structure Param where
  name : String
  optional : Bool
  deriving DecidableEq, Repr

/-- The keyword loop of `skylark.UnpackArgs`: each keyword is bound to the
first parameter of that name; a second value for a parameter and a name that
is no parameter are errors. `defined` lists the parameters bound so far. -/
def bindKeywords (fnname : String) (params : List Param) :
    List (String × Value) → List Nat → List (Option Value) → Except Error (List Nat × List (Option Value))
  | [], defined, cells => .ok (defined, cells)
  | (name, arg) :: rest, defined, cells =>
    let i := (params.map Param.name).indexOf name
    if i < params.length then
      if i ∈ defined then
        .error (.argument fnname (.multipleValues name))
      else
        bindKeywords fnname params rest (i :: defined) (cells.set i (some arg))
    else
      .error (.argument fnname (.unexpectedKeyword name))

/-- The final loop of `skylark.UnpackArgs`: from the first parameter not given
positionally up to the first optional one, every parameter must be bound. -/
def checkRequired (fnname : String) (defined : List Nat) : List (Nat × Param) → Option Error
  | [] => none
  | (i, p) :: rest =>
    if p.optional then none
    else if i ∈ defined then checkRequired fnname defined rest
    else some (.argument fnname (.missing p.name))

/-- `skylark.UnpackArgs(fnname, args, kwargs, pairs...)` where every pointer
is a `*skylark.Value`: `cells` holds what the pointers point to, and the
result is the cells after unpacking. Positional arguments fill the first
cells, keywords are bound in the order given, and the required parameters are
checked last. -/
def UnpackArgs (fnname : String) (args : List Value) (kwargs : List (String × Value))
    (params : List Param) (cells : List (Option Value)) : Except Error (List (Option Value)) :=
  if args.length > params.length then
    .error (.argument fnname (.atMost args.length params.length))
  else
    let positional := args.enum.foldl (fun cs ia => cs.set ia.1 (some ia.2)) cells
    match bindKeywords fnname params kwargs (List.range args.length) positional with
    | .error err => .error err
    | .ok (defined, bound) =>
      match checkRequired fnname defined (params.enum.drop args.length) with
      | some err => .error err
      | none => .ok bound

/-! ## The message wrapper -/

/-- Modelled from the spec: the wrapped message-value adapter
(`newSkyProtoMessage`, `wrapper.fields`, `wrapper.SetField`; it lives in another
file of the package). The spec gives it a field-name to field-descriptor
map with the original name per field, so the names `fields` lists are pairwise
distinct, and a black-box `SetField(name, scriptValue) -> error`. -/
structure FieldAdapter (M : Type) where
  fields : M → List String
  fields_nodup : ∀ m, (fields m).Nodup
  SetField : M → String → Value → Except Error M

/-- The struct `skyProtoMessage`: a message and its field table (the original
name of each field, in the order the table is ranged over). -/
structure skyProtoMessage (M : Type) where
  msg : M
  fields : List String

/-- The function `newSkyProtoMessage`. -/
def newSkyProtoMessage (A : FieldAdapter M) (msg : M) : skyProtoMessage M :=
  { msg := msg, fields := A.fields msg }

/-- `proto.Clone`: a deep copy, which on values is the value itself. -/
def protoClone (msg : M) : M := msg

/-- The first loop of `Call`: one fresh cell per field, registered in
`parsedKwargs` under the field's original name (a later entry for the same
key replaces the earlier one), and one optional parameter per field. -/
def declareFields : List String → List Param → List (String × Nat) →
    List Param × List (String × Nat)
  | [], parserPairs, parsedKwargs => (parserPairs, parsedKwargs)
  | origName :: rest, parserPairs, parsedKwargs =>
    declareFields rest (parserPairs ++ [{ name := origName, optional := true }])
      ((origName, parserPairs.length) :: parsedKwargs.filter (fun e => e.1 != origName))

/-- The entries of `parsedKwargs` as the final loop of `Call` meets them when
the map is ranged over in the key order `order`: each key with the content of
its cell. -/
def rangeMap (order : List String) (parsedKwargs : List (String × Nat))
    (cells : List (Option Value)) : List (String × Option Value) :=
  order.filterMap (fun k => (parsedKwargs.lookup k).map (fun i => (k, (cells.get? i).join)))

/-- The final loop of `Call`: skip the entries whose cell is nil, call
`SetField` for the others, stop at the first error. -/
def setFields (A : FieldAdapter M) :
    List (String × Option Value) → skyProtoMessage M → Except Error (skyProtoMessage M) × List Event
  | [], wrapper => (.ok wrapper, [])
  | (_, none) :: rest, wrapper => setFields A rest wrapper
  | (fieldName, some skylarkValue) :: rest, wrapper =>
    match A.SetField wrapper.msg fieldName skylarkValue with
    | .error err => (.error err, [.setField fieldName skylarkValue])
    | .ok msg =>
      let r := setFields A rest { wrapper with msg := msg }
      (r.1, .setField fieldName skylarkValue :: r.2)

/-- The method `(*skyProtoMessageType).Call`. Go leaves the order in which a
map is ranged over unspecified; `order` is the key order of this execution. -/
def skyProtoMessageType.Call (A : FieldAdapter M) (mt : skyProtoMessageType M)
    (order : List String) (args : List Value) (kwargs : List (String × Value)) :
    Except Error (skyProtoMessage M) × List Event :=
  match UnpackPositionalArgs mt.Name args [] 0 with
  | some err => (.error err, [])
  | none =>
    let wrapper := newSkyProtoMessage A (protoClone mt.emptyMsg)
    let (parserPairs, parsedKwargs) := declareFields wrapper.fields [] []
    match UnpackArgs mt.Name [] kwargs parserPairs (parserPairs.map (fun _ => none)) with
    | .error err => (.error err, [.clone, .unpackArgs])
    | .ok cells =>
      let r := setFields A (rangeMap order parsedKwargs cells) wrapper
      (r.1, .clone :: .unpackArgs :: r.2)

/-- The method `(*skyProtoMessageType).String` (declared last: inside this
namespace its name hides the type of strings). -/
def skyProtoMessageType.String (P : Process M) (mt : skyProtoMessageType M) : String :=
  "<proto.MessageType " ++ goQuote P.tableIsPrint mt.Name ++ ">"

/-- A name has no registered type in a registry, in the words of C2: the
process-wide table has no entry for it (nil registry), or the type a custom
registry returns for it is nil. -/
def hasNoRegisteredType (P : Process M) (registry : Option (unstableProtoRegistry M))
    (name : String) : Prop :=
  match registry with
  | none => P.MessageType name = none
  | some r => (r.UnstableProtoMessageType name).1 = none

/-- The lookup of a name finds nothing and reports nothing: the process-wide
table has no entry for it (nil registry), or the custom registry answers with
a nil type and a nil error. -/
def unregistered (P : Process M) (registry : Option (unstableProtoRegistry M))
    (name : String) : Prop :=
  match registry with
  | none => P.MessageType name = none
  | some r => r.UnstableProtoMessageType name = (none, none)

/-- The printing C10 describes, in the claim's words: the characters of the
name placed unchanged between two double quotes inside
`<proto.MessageType ...>`. -/
def printedUnchanged (name : String) : String :=
  "<proto.MessageType " ++ String.mk ([dquote] ++ name.data ++ [dquote]) ++ ">"

/-! ## Auxiliary notions for stating the properties of `Call` -/

/-- The parameters `Call` declares for a field table. -/
def fieldParams (fields : List String) : List Param :=
  fields.map (fun f => { name := f, optional := true })

/-- The cells after one keyword has been bound. -/
def bindStep (names : List String) (cells : List (Option Value)) (kv : String × Value) :
    List (Option Value) :=
  cells.set (names.indexOf kv.1) (some kv.2)

/-- The cells `Call` hands to `UnpackArgs`: one empty cell per field. -/
def freshCells (fs : List String) : List (Option Value) :=
  (fieldParams fs).map (fun _ => none)

/-- The `SetField` call the final loop of `Call` makes for a map entry: none
for an entry whose cell is nil. -/
def callOf (e : String × Option Value) : Option Event :=
  e.2.map (Event.setField e.1)

/-- Performing recorded `SetField` calls, in order, on a message: the first
failing call ends the sequence with its error. Other events leave the message
as it is. -/
def replay (A : FieldAdapter M) : List Event → M → Except Error M
  | [], m => .ok m
  | .setField f v :: rest, m =>
    match A.SetField m f v with
    | .error err => .error err
    | .ok m' => replay A rest m'
  | _ :: rest, m => replay A rest m

/-- Two `SetField` calls in a row, the second only if the first succeeds. -/
def setTwice (A : FieldAdapter M) (m : M) (f : String) (v : Value) (g : String) (w : Value) :
    Except Error M :=
  match A.SetField m f v with
  | .error err => .error err
  | .ok m' => A.SetField m' g w

/-- The keyword an argument error names, if it names one. -/
def ArgFault.mentions : ArgFault → String → Prop
  | .unexpectedKeyword n, k => n = k
  | .multipleValues n, k => n = k
  | .missing n, k => n = k
  | _, _ => False

/-! ## A small schema used in the examples -/

/-- The message `acme.Point` with two integer fields. -/
structure Point where
  x : Int
  y : Int
  deriving DecidableEq, Repr

/-- Field table and `SetField` of `acme.Point`: integers are accepted for `x`
and `y`, everything else is a conversion error naming the field. -/
def pointAdapter : FieldAdapter Point where
  fields := fun _ => ["x", "y"]
  fields_nodup := by intro _; show List.Nodup ["x", "y"]; decide
  SetField := fun m f v =>
    match v with
    | .int i =>
      if f = "x" then .ok { m with x := i }
      else if f = "y" then .ok { m with y := i }
      else .error (.external f)
    | _ => .error (.external f)

/-- The zero `acme.Point` with its descriptors. -/
def pointMessage : DescriptorMessage Point :=
  { msg := { x := 0, y := 0 }
    fileDesc := some { Package := some "acme" }
    msgDesc := some { Name := some "Point" } }

/-- The reflection type of a pointer to a generated `acme.Point`. -/
def pointGoType : GoType Point :=
  { text := "*acme.Point", Kind := Kind.Ptr, zeroElem := some pointMessage }

/-- A process in which `acme.Point` is registered under its own name and,
by a faulty registration, under `acme.Alias` as well. -/
def acmeProcess : Process Point :=
  { MessageType := fun n =>
      if n = "acme.Point" then some pointGoType
      else if n = "acme.Alias" then some pointGoType
      else none
    tableIsPrint := fun _ => true }

/-- A custom registry that holds `acme.Point` and reports every other name
with an error of its own. -/
def strictRegistry : unstableProtoRegistry Point :=
  { UnstableProtoMessageType := fun n =>
      if n = "acme.Point" then (some pointGoType, none)
      else (none, some (.external "no such message type")) }

/-- The type object of `acme.Point` resolved through the nil registry. -/
def pointType : skyProtoMessageType Point :=
  { registry := none
    fileDesc := pointMessage.fileDesc
    msgDesc := pointMessage.msgDesc
    emptyMsg := pointMessage.msg }

/-- The message `acme.Shape`, whose fields `circle` and `square` are the two
members of one oneof: a message holds at most one of them. -/
structure Shape where
  circle : Option Int
  square : Option Int
  deriving DecidableEq, Repr

/-- Field table and `SetField` of `acme.Shape`: setting a member of the oneof
replaces whichever member was set before. -/
def shapeAdapter : FieldAdapter Shape where
  fields := fun _ => ["circle", "square"]
  fields_nodup := by intro _; show List.Nodup ["circle", "square"]; decide
  SetField := fun _ f v =>
    match v with
    | .int i =>
      if f = "circle" then .ok { circle := some i, square := none }
      else if f = "square" then .ok { circle := none, square := some i }
      else .error (.external f)
    | _ => .error (.external f)

/-- The type object of `acme.Shape`. -/
def shapeType : skyProtoMessageType Shape :=
  { registry := none
    fileDesc := some { Package := some "acme" }
    msgDesc := some { Name := some "Shape" }
    emptyMsg := { circle := none, square := none } }

/-- A type object without package whose message name begins with a dot. -/
def dottedType : skyProtoMessageType Unit :=
  { registry := none, fileDesc := none, msgDesc := some { Name := some ".Inner" }, emptyMsg := () }

/-- A type object without package whose message name holds a double quote. -/
def quotedType : skyProtoMessageType Unit :=
  { registry := none
    fileDesc := none
    msgDesc := some { Name := some (String.mk ['a', dquote, 'b']) }
    emptyMsg := () }

/-! ## Resolution -/

theorem newMessageType_ok {P : Process M} {registry : Option (unstableProtoRegistry M)}
    {name : String} {mt : skyProtoMessageType M}
    (h : (newMessageType P registry name).1 = .ok mt) :
    mt.registry = registry ∧ mt.Name = name := by
  unfold newMessageType at h
  split at h
  · cases h
  · cases h
  · split at h
    · cases h
    · split at h
      · cases h
      · simp only at h
        split at h
        · cases h
        · rename_i hname
          simp only [Except.ok.injEq] at h
          subst h
          exact ⟨rfl, (not_not.mp hname).symm⟩

/-- C1: a type object returned by `newMessageType(registry, N)` has `Name()`
equal to `N`; and when the name computed from the template's descriptors
differs from `N`, the result is the `InternalError` about the unexpected type
name and no type object. -/
theorem newMessageType_name_roundtrip (P : Process M)
    (registry : Option (unstableProtoRegistry M)) (name : String) :
    (∀ mt, (newMessageType P registry name).1 = .ok mt → mt.Name = name) ∧
    (∀ goType emptyMsg, lookupGoType P registry name = .ok (some goType) →
      goType.Kind = Kind.Ptr → goType.zeroElem = some emptyMsg →
      (skyProtoMessageType.mk registry emptyMsg.fileDesc emptyMsg.msgDesc emptyMsg.msg).Name
        ≠ name →
      (newMessageType P registry name).1 = .error (.errorf ("InternalError: " ++ goType.text ++
        " has unexpected protobuf type name " ++
        goQuote P.tableIsPrint
          (skyProtoMessageType.mk registry emptyMsg.fileDesc emptyMsg.msgDesc emptyMsg.msg).Name ++
        " (wanted " ++ goQuote P.tableIsPrint name ++ ")"))) := by
  refine ⟨fun mt h => (newMessageType_ok h).2, ?_⟩
  intro goType emptyMsg hl hk hz hne
  unfold newMessageType
  rw [hl]
  simp only [hk, hz, ne_eq, not_true_eq_false, if_false]
  rw [if_pos (fun h => hne h.symm)]

/-- C1 at `acme.Point`: resolved under its own name the type object is named `acme.Point`; resolved under `acme.Alias` it is rejected. -/
theorem newMessageType_name_roundtrip_witness :
    (skyProtoMessageType.Name pointType = "acme.Point") ∧
    (newMessageType acmeProcess none "acme.Alias").1 = .error (.errorf ("InternalError: " ++
        "*acme.Point" ++ " has unexpected protobuf type name " ++
        goQuote acmeProcess.tableIsPrint "acme.Point" ++
        " (wanted " ++ goQuote acmeProcess.tableIsPrint "acme.Alias" ++ ")")) :=
  ⟨(newMessageType_name_roundtrip acmeProcess none "acme.Point").1 pointType rfl,
   (newMessageType_name_roundtrip acmeProcess none "acme.Alias").2 pointGoType pointMessage
     rfl rfl rfl (by decide)⟩

/-- C2, refuted as stated: `acme.Line` has no registered type in a custom
registry that reports unknown names with its own error, and `newMessageType`
returns that error, not the `not found` error. -/
theorem newMessageType_notFound_counterexample :
    ¬ ∀ (P : Process Point) (registry : Option (unstableProtoRegistry Point)) (name : String),
      hasNoRegisteredType P registry name →
      (newMessageType P registry name).1 = .error (.errorf
        ("Protobuf message type " ++ goQuote P.tableIsPrint name ++ " not found")) := by
  intro h
  have h1 := h acmeProcess (some strictRegistry) "acme.Line" rfl
  have h2 : (newMessageType acmeProcess (some strictRegistry) "acme.Line").1 =
      .error (.external "no such message type") := rfl
  rw [h2] at h1
  cases h1

/-- C2, amended: for the nil registry and a name absent from the process-wide
table, and for a custom registry whose lookup returns a nil type and a nil
error, `newMessageType` returns the error `Protobuf message type <quoted name>
not found`; when the lookup of a custom registry returns an error,
`newMessageType` returns that error. In each case there is no type object and
the lookup is the only step performed: neither the reflection step nor the
descriptor step is reached. -/
theorem newMessageType_unregistered (P : Process M)
    (registry : Option (unstableProtoRegistry M)) (name : String) :
    (unregistered P registry name →
      newMessageType P registry name =
        (.error (.errorf
          ("Protobuf message type " ++ goQuote P.tableIsPrint name ++ " not found")),
          [Event.lookup name])) ∧
    (∀ r goType err, registry = some r →
      r.UnstableProtoMessageType name = (goType, some err) →
      newMessageType P registry name = (.error err, [Event.lookup name])) := by
  constructor
  · intro h
    have hl : lookupGoType P registry name = .ok none := by
      cases registry with
      | none => simpa [unregistered, lookupGoType] using h
      | some r => simp only [unregistered] at h; simp [lookupGoType, h]
    unfold newMessageType
    rw [hl]
  · intro r goType err hr hlook
    have hl : lookupGoType P registry name = .error err := by
      subst hr
      simp [lookupGoType, hlook]
    unfold newMessageType
    rw [hl]

/-- C2 at `acme.Line`: absent from the process-wide table, and reported with an error by the custom registry. -/
theorem newMessageType_unregistered_witness :
    newMessageType acmeProcess none "acme.Line" =
      (.error (.errorf ("Protobuf message type " ++
        goQuote acmeProcess.tableIsPrint "acme.Line" ++ " not found")),
        [Event.lookup "acme.Line"]) ∧
    newMessageType acmeProcess (some strictRegistry) "acme.Line" =
      (.error (.external "no such message type"), [Event.lookup "acme.Line"]) :=
  ⟨(newMessageType_unregistered acmeProcess none "acme.Line").1 rfl,
   (newMessageType_unregistered acmeProcess (some strictRegistry) "acme.Line").2
     strictRegistry none (.external "no such message type") rfl rfl⟩

/-- C8: for a type object `T` obtained from `newMessageType(registry, N)` and
any attribute name `X`, `T.Attr(X)` is exactly `newMessageType(registry,
N + "." + X)`: same result, same steps, same registry (nil stays nil). -/
theorem Attr_resolves_nested (P : Process M) (registry : Option (unstableProtoRegistry M))
    (N X : String) (T : skyProtoMessageType M)
    (h : (newMessageType P registry N).1 = .ok T) :
    T.Attr P X = newMessageType P registry (N ++ "." ++ X) ∧ T.registry = registry := by
  obtain ⟨hr, hn⟩ := newMessageType_ok h
  exact ⟨by unfold skyProtoMessageType.Attr; rw [hr, hn], hr⟩

/-- C8 at `acme.Point` and the attribute `Inner`. -/
theorem Attr_resolves_nested_witness :
    skyProtoMessageType.Attr acmeProcess pointType "Inner" =
      newMessageType acmeProcess none ("acme.Point" ++ "." ++ "Inner") ∧
    pointType.registry = none :=
  Attr_resolves_nested acmeProcess none "acme.Point" "Inner" pointType rfl

/-! ## Naming and printing -/

/-- C9, refuted as stated: a type object without package whose message name is
`.Inner` has a `Name()` with a leading dot. -/
theorem Name_leading_dot_counterexample :
    ¬ ∀ mt : skyProtoMessageType Unit, mt.Name.data.head? ≠ some '.' := by
  intro h
  exact h dottedType (by decide)

/-- C9, amended: `Name()` is `M` alone when the package `P` is empty or unset
and `P + "." + M` otherwise, and it begins with a dot only when `M` (empty
package) or `P` (non-empty package) itself begins with one. -/
theorem Name_qualified (mt : skyProtoMessageType M) :
    (GetPackage mt.fileDesc = "" → mt.Name = GetName mt.msgDesc) ∧
    (GetPackage mt.fileDesc ≠ "" →
      mt.Name = GetPackage mt.fileDesc ++ "." ++ GetName mt.msgDesc) ∧
    (mt.fileDesc = none → mt.Name = GetName mt.msgDesc) ∧
    (∀ f, mt.fileDesc = some f → f.Package = none → mt.Name = GetName mt.msgDesc) ∧
    (mt.Name.data.head? = some '.' →
      (GetPackage mt.fileDesc = "" ∧ (GetName mt.msgDesc).data.head? = some '.') ∨
      (GetPackage mt.fileDesc ≠ "" ∧ (GetPackage mt.fileDesc).data.head? = some '.')) := by
  refine ⟨fun h => by simp [skyProtoMessageType.Name, h],
    fun h => by simp [skyProtoMessageType.Name, h],
    fun h => by simp [skyProtoMessageType.Name, h, GetPackage],
    fun f h1 h2 => ?_, fun h => ?_⟩
  · cases f
    simp only at h2
    subst h2
    simp [skyProtoMessageType.Name, h1, GetPackage]
  · by_cases hp : GetPackage mt.fileDesc = ""
    · left
      refine ⟨hp, ?_⟩
      simpa [skyProtoMessageType.Name, hp] using h
    · right
      refine ⟨hp, ?_⟩
      have hd : (GetPackage mt.fileDesc).data ≠ [] := by
        intro hnil
        apply hp
        exact String.ext hnil
      simp only [skyProtoMessageType.Name, hp, if_false, String.data_append] at h
      cases hdata : (GetPackage mt.fileDesc).data with
      | nil => exact absurd hdata hd
      | cons c cs => rw [hdata] at h; simpa using h

/-- C9 at `acme.Point` (package set) and at the type without package. -/
theorem Name_qualified_witness :
    skyProtoMessageType.Name pointType = "acme" ++ "." ++ "Point" ∧
    skyProtoMessageType.Name dottedType = ".Inner" :=
  ⟨(Name_qualified pointType).2.1 (by decide), (Name_qualified dottedType).2.2.1 rfl⟩

theorem flatMap_appendEscapedRune_plain (t : Char → Bool) (l : List Char)
    (h : ∀ c ∈ l, c ≠ dquote ∧ c ≠ backslash ∧ IsPrint t c = true) :
    l.flatMap (appendEscapedRune t) = l := by
  induction l with
  | nil => rfl
  | cons c cs ih =>
    obtain ⟨h1, h2, h3⟩ := h c (List.mem_cons_self c cs)
    have hc : appendEscapedRune t c = [c] := by
      simp [appendEscapedRune, h1, h2, h3]
    rw [List.flatMap_cons, hc, ih (fun d hd => h d (List.mem_cons_of_mem c hd))]
    rfl

/-- C10, refuted as stated: for the name made of `a`, a double quote and `b`,
`String()` is not the name placed unchanged between two double quotes. -/
theorem String_unchanged_counterexample :
    ¬ ∀ (P : Process Unit) (mt : skyProtoMessageType Unit),
      mt.String P = printedUnchanged mt.Name := by
  intro h
  have h1 := h { MessageType := fun _ => none, tableIsPrint := fun _ => true } quotedType
  revert h1
  decide

/-- C10, amended: `String()` is `<proto.MessageType Q>` where `Q` is `Name()`
as the `%q` verb renders it; `Q` is the characters of `Name()` unchanged
between two double quotes whenever every character of the name is printable
and is neither a double quote nor a backslash. -/
theorem String_quotes_name (P : Process M) (mt : skyProtoMessageType M) :
    mt.String P = "<proto.MessageType " ++ goQuote P.tableIsPrint mt.Name ++ ">" ∧
    ((∀ c ∈ mt.Name.data, c ≠ dquote ∧ c ≠ backslash ∧ IsPrint P.tableIsPrint c = true) →
      mt.String P = printedUnchanged mt.Name) := by
  refine ⟨rfl, fun h => ?_⟩
  unfold skyProtoMessageType.String printedUnchanged goQuote
  rw [flatMap_appendEscapedRune_plain _ _ h]

/-- C10 at `acme.Point`, whose name needs no escaping. -/
theorem String_quotes_name_witness :
    skyProtoMessageType.String acmeProcess pointType = printedUnchanged "acme.Point" :=
  (String_quotes_name acmeProcess pointType).2 (by decide)

/-! ## The pieces of `Call` -/

theorem lookup_filter_ne (m : List (String × Nat)) (f k : String) (h : k ≠ f) :
    (m.filter (fun e => e.1 != f)).lookup k = m.lookup k := by
  induction m with
  | nil => rfl
  | cons e es ih =>
    obtain ⟨a, i⟩ := e
    by_cases ha : a = f
    · subst ha
      have hka : (k == a) = false := by simpa using h
      simp [List.filter_cons, List.lookup_cons, hka, ih]
    · have : (a != f) = true := by simpa using ha
      simp only [List.filter_cons, this, if_true, List.lookup_cons, ih]

theorem declareFields_fst (fs : List String) (ps : List Param) (m : List (String × Nat)) :
    (declareFields fs ps m).1 = ps ++ fieldParams fs := by
  induction fs generalizing ps m with
  | nil => simp [declareFields, fieldParams]
  | cons f rest ih => simp [declareFields, ih, fieldParams]

theorem declareFields_lookup (fs : List String) (ps : List Param) (m : List (String × Nat))
    (hnd : fs.Nodup) (k : String) :
    (declareFields fs ps m).2.lookup k =
      if k ∈ fs then some (ps.length + fs.indexOf k) else m.lookup k := by
  induction fs generalizing ps m with
  | nil => simp [declareFields]
  | cons f rest ih =>
    have hnd' := (List.nodup_cons.mp hnd)
    rw [declareFields, ih _ _ hnd'.2]
    by_cases hk : k = f
    · subst hk
      simp [hnd'.1, List.lookup_cons]
    · have hkf : (k == f) = false := by simpa using hk
      by_cases hr : k ∈ rest
      · simp [hr, List.indexOf_cons_ne _ (Ne.symm hk)]
        omega
      · simp [hr, hk, List.lookup_cons, hkf, lookup_filter_ne _ _ _ hk]

theorem bindKeywords_ok (fn : String) (ps : List Param) :
    ∀ (kw : List (String × Value)) (d : List Nat) (c : List (Option Value))
      (d' : List Nat) (c' : List (Option Value)),
      bindKeywords fn ps kw d c = .ok (d', c') →
      (∀ k ∈ kw.map Prod.fst, k ∈ ps.map Param.name ∧ (ps.map Param.name).indexOf k ∉ d) ∧
      (kw.map Prod.fst).Nodup ∧ c' = kw.foldl (bindStep (ps.map Param.name)) c := by
  intro kw
  induction kw with
  | nil =>
    intro d c d' c' h
    simp only [bindKeywords, Except.ok.injEq, Prod.mk.injEq] at h
    simp [h.2]
  | cons kv rest ih =>
    intro d c d' c' h
    obtain ⟨k, v⟩ := kv
    simp only [bindKeywords] at h
    split at h
    · rename_i hlt
      split at h
      · cases h
      · rename_i hnd
        obtain ⟨h1, h2, h3⟩ := ih _ _ _ _ h
        have hk : k ∈ ps.map Param.name := by
          apply List.indexOf_lt_length.mp
          simpa using hlt
        refine ⟨?_, ?_, ?_⟩
        · intro k' hk'
          simp only [List.map_cons, List.mem_cons] at hk'
          rcases hk' with rfl | hk'
          · exact ⟨hk, hnd⟩
          · exact ⟨(h1 k' hk').1, fun hmem => (h1 k' hk').2 (List.mem_cons_of_mem _ hmem)⟩
        · simp only [List.map_cons, List.nodup_cons]
          refine ⟨fun hmem => ?_, h2⟩
          exact (h1 k hmem).2 (List.mem_cons_self _ _)
        · simpa [bindStep] using h3
    · cases h

theorem bindKeywords_prefix (fn : String) (ps : List Param) (k : String) (v : Value)
    (post : List (String × Value)) (hk : k ∉ ps.map Param.name) :
    ∀ (pre : List (String × Value)) (d : List Nat) (c : List (Option Value)),
      (∀ k' ∈ pre.map Prod.fst, k' ∈ ps.map Param.name ∧ (ps.map Param.name).indexOf k' ∉ d) →
      (pre.map Prod.fst).Nodup →
      bindKeywords fn ps (pre ++ (k, v) :: post) d c =
        .error (.argument fn (.unexpectedKeyword k)) := by
  intro pre
  induction pre with
  | nil =>
    intro d c _ _
    have : ¬ (ps.map Param.name).indexOf k < ps.length := by
      rw [List.indexOf_of_not_mem hk]
      simp
    simp [bindKeywords, this]
  | cons kv rest ih =>
    intro d c hd hnd
    obtain ⟨k0, v0⟩ := kv
    have h0 := hd k0 (by simp)
    have hlt : (ps.map Param.name).indexOf k0 < ps.length := by
      simpa using List.indexOf_lt_length.mpr h0.1
    simp only [List.map_cons, List.nodup_cons] at hnd
    simp only [List.cons_append, bindKeywords, hlt, if_true, h0.2, if_false]
    apply ih
    · intro k' hk'
      have h' := hd k' (by simp [List.mem_of_mem_tail, hk'] )
      refine ⟨h'.1, fun hmem => ?_⟩
      rcases List.mem_cons.mp hmem with heq | hmem
      · have := (List.indexOf_inj h'.1 h0.1).mp heq
        subst this
        exact hnd.1 hk'
      · exact h'.2 hmem
    · exact hnd.2

theorem bindKeywords_unknown (fn : String) (ps : List Param) :
    ∀ (kw : List (String × Value)) (d : List Nat) (c : List (Option Value)),
      (∃ k ∈ kw.map Prod.fst, k ∉ ps.map Param.name) →
      ∃ fault, bindKeywords fn ps kw d c = .error (.argument fn fault) ∧
        ((∃ k, fault = .unexpectedKeyword k ∧ k ∈ kw.map Prod.fst ∧ k ∉ ps.map Param.name) ∨
         (∃ k, fault = .multipleValues k ∧ k ∈ kw.map Prod.fst ∧ k ∈ ps.map Param.name ∧
            ((ps.map Param.name).indexOf k ∈ d ∨ 2 ≤ (kw.map Prod.fst).count k))) := by
  intro kw
  induction kw with
  | nil => intro d c h; simp at h
  | cons kv rest ih =>
    intro d c h
    obtain ⟨k, v⟩ := kv
    by_cases hk : k ∈ ps.map Param.name
    · have hlt : (ps.map Param.name).indexOf k < ps.length := by
        simpa using List.indexOf_lt_length.mpr hk
      by_cases hd : (ps.map Param.name).indexOf k ∈ d
      · refine ⟨.multipleValues k, by simp [bindKeywords, hlt, hd], Or.inr ⟨k, rfl, by simp, hk, Or.inl hd⟩⟩
      · have hrest : ∃ k' ∈ rest.map Prod.fst, k' ∉ ps.map Param.name := by
          obtain ⟨k', hk', hn⟩ := h
          simp only [List.map_cons, List.mem_cons] at hk'
          rcases hk' with rfl | hk'
          · exact absurd hk hn
          · exact ⟨k', hk', hn⟩
        obtain ⟨fault, hf, hcase⟩ := ih ((ps.map Param.name).indexOf k :: d)
          (c.set ((ps.map Param.name).indexOf k) (some v)) hrest
        refine ⟨fault, by simp only [bindKeywords, hlt, if_true, hd, if_false]; exact hf, ?_⟩
        rcases hcase with ⟨k', rfl, hm, hn⟩ | ⟨k', rfl, hm, hin, hor⟩
        · exact Or.inl ⟨k', rfl, by simp [hm], hn⟩
        · refine Or.inr ⟨k', rfl, by simp [hm], hin, ?_⟩
          rcases hor with hmem | hcount
          · rcases List.mem_cons.mp hmem with heq | hmem
            · have := (List.indexOf_inj hin hk).mp heq
              subst this
              right
              have : 1 ≤ (rest.map Prod.fst).count k' := List.count_pos_iff.mpr hm
              simp only [List.map_cons, List.count_cons_self]
              omega
            · exact Or.inl hmem
          · right
            simp only [List.map_cons, List.count_cons]
            omega
    · have : ¬ (ps.map Param.name).indexOf k < ps.length := by
        rw [List.indexOf_of_not_mem hk]
        simp
      exact ⟨.unexpectedKeyword k, by simp [bindKeywords, this], Or.inl ⟨k, rfl, by simp, hk⟩⟩

theorem fieldParams_names (fs : List String) : (fieldParams fs).map Param.name = fs := by
  simp [fieldParams, Function.comp_def]

theorem checkRequired_fieldParams (fn : String) (d : List Nat) (fs : List String) :
    checkRequired fn d (fieldParams fs).enum = none := by
  cases fs with
  | nil => rfl
  | cons f rest => simp [fieldParams, List.enum, List.enumFrom, checkRequired]

theorem UnpackArgs_keywords_only (fn : String) (kw : List (String × Value)) (fs : List String)
    (cells : List (Option Value)) :
    UnpackArgs fn [] kw (fieldParams fs) cells =
      match bindKeywords fn (fieldParams fs) kw [] cells with
      | .error err => .error err
      | .ok (_, bound) => .ok bound := by
  unfold UnpackArgs
  simp only [List.length_nil, gt_iff_lt, Nat.not_lt_zero, if_false, List.enum_nil, List.foldl_nil,
    List.range_zero, List.drop_zero, checkRequired_fieldParams]

theorem Call_keywords_only (A : FieldAdapter M) (mt : skyProtoMessageType M)
    (order : List String) (kw : List (String × Value)) :
    mt.Call A order [] kw =
      match bindKeywords mt.Name (fieldParams (A.fields mt.emptyMsg)) kw []
          (freshCells (A.fields mt.emptyMsg)) with
      | .error err => (.error err, [.clone, .unpackArgs])
      | .ok (_, cells) =>
        ((setFields A (rangeMap order (declareFields (A.fields mt.emptyMsg) [] []).2 cells)
            (newSkyProtoMessage A mt.emptyMsg)).1,
          .clone :: .unpackArgs ::
          (setFields A (rangeMap order (declareFields (A.fields mt.emptyMsg) [] []).2 cells)
            (newSkyProtoMessage A mt.emptyMsg)).2) := by
  unfold skyProtoMessageType.Call
  have hd : declareFields (A.fields mt.emptyMsg) [] [] =
      (fieldParams (A.fields mt.emptyMsg), (declareFields (A.fields mt.emptyMsg) [] []).2) := by
    have := declareFields_fst (A.fields mt.emptyMsg) [] []
    simp only [List.nil_append] at this
    rw [← this]
  simp only [UnpackPositionalArgs, List.length_nil, gt_iff_lt, Nat.lt_irrefl, if_false,
    newSkyProtoMessage, protoClone]
  rw [hd]
  simp only [UnpackArgs_keywords_only, freshCells]
  cases hb : bindKeywords mt.Name (fieldParams (A.fields mt.emptyMsg)) kw []
      (List.map (fun _ => none) (fieldParams (A.fields mt.emptyMsg))) with
  | error e => rfl
  | ok r => rfl

theorem foldl_bindStep_length (names : List String) (kw : List (String × Value))
    (c : List (Option Value)) : (kw.foldl (bindStep names) c).length = c.length := by
  induction kw generalizing c with
  | nil => rfl
  | cons kv rest ih => simp [List.foldl_cons, ih, bindStep]

theorem foldl_bindStep_untouched (names : List String) (kw : List (String × Value))
    (c : List (Option Value)) (i : Nat)
    (h : ∀ k ∈ kw.map Prod.fst, names.indexOf k ≠ i) :
    (kw.foldl (bindStep names) c).get? i = c.get? i := by
  induction kw generalizing c with
  | nil => rfl
  | cons kv rest ih =>
    rw [List.foldl_cons, ih _ (fun k hk => h k (by simp [hk]))]
    have := h kv.1 (by simp)
    simp [bindStep, List.getElem?_set_ne this]

theorem foldl_bindStep_bound (names : List String) (kw : List (String × Value))
    (c : List (Option Value)) (k : String) (v : Value)
    (hnd : (kw.map Prod.fst).Nodup) (hdecl : ∀ k' ∈ kw.map Prod.fst, k' ∈ names)
    (hmem : (k, v) ∈ kw) (hlen : names.indexOf k < c.length) :
    (kw.foldl (bindStep names) c).get? (names.indexOf k) = some (some v) := by
  induction kw generalizing c with
  | nil => simp at hmem
  | cons kv rest ih =>
    simp only [List.map_cons, List.nodup_cons] at hnd
    rw [List.foldl_cons]
    rcases List.mem_cons.mp hmem with heq | hmem'
    · subst heq
      rw [foldl_bindStep_untouched]
      · simp [bindStep, List.getElem?_set_self hlen]
      · intro k' hk' heq
        have := (List.indexOf_inj (hdecl k' (by simp [hk'])) (hdecl k (by simp))).mp heq
        subst this
        exact hnd.1 hk'
    · exact ih _ hnd.2 (fun k' hk' => hdecl k' (by simp [hk'])) hmem' (by simpa [bindStep] using hlen)

theorem setFields_ok (A : FieldAdapter M) :
    ∀ (visit : List (String × Option Value)) (w w' : skyProtoMessage M),
      (setFields A visit w).1 = .ok w' →
      (setFields A visit w).2 = visit.filterMap callOf ∧
      replay A (visit.filterMap callOf) w.msg = .ok w'.msg ∧ w'.fields = w.fields := by
  intro visit
  induction visit with
  | nil =>
    intro w w' h
    simp only [setFields, Except.ok.injEq] at h
    subst h
    simp [setFields, replay]
  | cons e rest ih =>
    intro w w' h
    obtain ⟨k, ov⟩ := e
    cases ov with
    | none =>
      simp only [setFields] at h ⊢
      simpa [callOf] using ih w w' h
    | some v =>
      simp only [setFields] at h ⊢
      cases hs : A.SetField w.msg k v with
      | error err => rw [hs] at h; cases h
      | ok m' =>
        rw [hs] at h
        simp only at h
        obtain ⟨h1, h2, h3⟩ := ih _ _ h
        simp only [callOf, Option.map_some', List.filterMap_cons_some, replay, hs]
        exact ⟨by rw [h1]; rfl, h2, h3⟩

theorem setFields_frame (A : FieldAdapter M) {α : Type} (get : M → String → α)
    (hframe : ∀ m f v m', A.SetField m f v = .ok m' → ∀ g, g ≠ f → get m' g = get m g)
    (g : String) :
    ∀ (visit : List (String × Option Value)) (w w' : skyProtoMessage M),
      (setFields A visit w).1 = .ok w' → (∀ v, (g, some v) ∉ visit) →
      get w'.msg g = get w.msg g := by
  intro visit
  induction visit with
  | nil =>
    intro w w' h _
    simp only [setFields, Except.ok.injEq] at h
    subst h
    rfl
  | cons e rest ih =>
    intro w w' h hg
    obtain ⟨k, ov⟩ := e
    cases ov with
    | none =>
      simp only [setFields] at h
      exact ih w w' h (fun v hv => hg v (List.mem_cons_of_mem _ hv))
    | some v =>
      simp only [setFields] at h
      cases hs : A.SetField w.msg k v with
      | error err => rw [hs] at h; cases h
      | ok m' =>
        rw [hs] at h
        simp only at h
        have hne : g ≠ k := by
          intro heq
          subst heq
          exact hg v (List.mem_cons_self _ _)
        rw [ih _ _ h (fun v hv => hg v (List.mem_cons_of_mem _ hv))]
        exact hframe _ _ _ _ hs g hne

theorem setFields_first_failure (A : FieldAdapter M) :
    ∀ (visit : List (String × Option Value)) (w : skyProtoMessage M) (pre post : List Event)
      (f : String) (v : Value) (m1 : M) (e : Error),
      (setFields A visit w).2 = pre ++ Event.setField f v :: post →
      replay A pre w.msg = .ok m1 → A.SetField m1 f v = .error e →
      post = [] ∧ (setFields A visit w).1 = .error e := by
  intro visit
  induction visit with
  | nil =>
    intro w pre post f v m1 e h _ _
    simp [setFields] at h
  | cons en rest ih =>
    intro w pre post f v m1 e h hpre hfail
    obtain ⟨k, ov⟩ := en
    cases ov with
    | none =>
      simp only [setFields] at h ⊢
      exact ih w pre post f v m1 e h hpre hfail
    | some val =>
      simp only [setFields] at h ⊢
      cases hs : A.SetField w.msg k val with
      | error err =>
        rw [hs] at h
        simp only at h ⊢
        cases pre with
        | nil =>
          simp only [List.nil_append, List.cons.injEq, Event.setField.injEq] at h
          obtain ⟨⟨rfl, rfl⟩, hpost⟩ := h
          simp only [replay, Except.ok.injEq] at hpre
          subst hpre
          rw [hs] at hfail
          cases hfail
          exact ⟨hpost.symm, rfl⟩
        | cons p pre' =>
          simp only [List.cons_append, List.cons.injEq] at h
          have := h.2
          simp at this
      | ok m' =>
        rw [hs] at h
        simp only at h ⊢
        cases pre with
        | nil =>
          simp only [List.nil_append, List.cons.injEq, Event.setField.injEq] at h
          obtain ⟨⟨rfl, rfl⟩, _⟩ := h
          simp only [replay, Except.ok.injEq] at hpre
          subst hpre
          rw [hs] at hfail
          cases hfail
        | cons p pre' =>
          simp only [List.cons_append, List.cons.injEq] at h
          obtain ⟨rfl, h'⟩ := h
          simp only [replay, hs] at hpre
          exact ih _ pre' post f v m1 e h' hpre hfail

theorem foldl_bindStep_origin (names : List String) (kw : List (String × Value))
    (c : List (Option Value)) (i : Nat) (v : Value)
    (h : (kw.foldl (bindStep names) c).get? i = some (some v)) :
    c.get? i = some (some v) ∨ ∃ k, (k, v) ∈ kw ∧ names.indexOf k = i := by
  induction kw generalizing c with
  | nil => exact Or.inl h
  | cons kv rest ih =>
    rw [List.foldl_cons] at h
    rcases ih _ h with h1 | ⟨k, hk, hi⟩
    · simp only [bindStep, List.get?_eq_getElem?, List.getElem?_set] at h1
      split at h1
      · rename_i heq
        split at h1
        · simp only [Option.some.injEq] at h1
          exact Or.inr ⟨kv.1, by rw [← h1]; exact List.mem_cons_self _ _, heq⟩
        · cases h1
      · left
        simpa using h1
    · exact Or.inr ⟨k, List.mem_cons_of_mem _ hk, hi⟩

theorem cells_supplied (fn : String) (fs : List String) (kw : List (String × Value))
    (d : List Nat) (cells : List (Option Value))
    (hb : bindKeywords fn (fieldParams fs) kw [] (freshCells fs) = .ok (d, cells))
    (f : String) (hf : f ∈ fs) (v : Value) :
    (cells.get? (fs.indexOf f)).join = some v ↔ (f, v) ∈ kw := by
  obtain ⟨h1, h2, h3⟩ := bindKeywords_ok _ _ _ _ _ _ _ hb
  rw [fieldParams_names] at h1 h3
  subst h3
  rw [Option.join_eq_some]
  constructor
  · intro h
    rcases foldl_bindStep_origin _ _ _ _ _ h with h0 | ⟨k, hk, hi⟩
    · simp only [freshCells, List.get?_eq_getElem?, List.getElem?_map] at h0
      cases hx : (fieldParams fs)[fs.indexOf f]? with
      | none => rw [hx] at h0; cases h0
      | some p => rw [hx] at h0; cases h0
    · have hkfs : k ∈ fs := (h1 k (List.mem_map_of_mem Prod.fst hk)).1
      have := (List.indexOf_inj hkfs hf).mp hi
      subst this
      exact hk
  · intro h
    apply foldl_bindStep_bound _ _ _ _ _ h2 (fun k hk => (h1 k hk).1) h
    simpa [freshCells, fieldParams] using List.indexOf_lt_length.mpr hf

theorem rangeMap_declared (order fs : List String) (cells : List (Option Value))
    (hnd : fs.Nodup) :
    rangeMap order (declareFields fs [] []).2 cells =
      order.filterMap
        (fun k => if k ∈ fs then some (k, (cells.get? (fs.indexOf k)).join) else none) := by
  unfold rangeMap
  congr 1
  funext k
  rw [declareFields_lookup _ _ _ hnd]
  by_cases hk : k ∈ fs <;> simp [hk]

theorem setFields_perm (A : FieldAdapter M) {l1 l2 : List (String × Option Value)}
    (hp : l1.Perm l2) (hnd : (l1.map Prod.fst).Nodup)
    (hc : ∀ k1 v1 k2 v2, (k1, some v1) ∈ l1 → (k2, some v2) ∈ l1 → k1 ≠ k2 →
      ∀ m, setTwice A m k1 v1 k2 v2 = setTwice A m k2 v2 k1 v1)
    (w : skyProtoMessage M) :
    (setFields A l1 w).1 = (setFields A l2 w).1 := by
  induction hp generalizing w with
  | nil => rfl
  | @cons x l1 l2 _ ih =>
    simp only [List.map_cons, List.nodup_cons] at hnd
    have hc' : ∀ k1 v1 k2 v2, (k1, some v1) ∈ l1 → (k2, some v2) ∈ l1 → k1 ≠ k2 →
        ∀ m, setTwice A m k1 v1 k2 v2 = setTwice A m k2 v2 k1 v1 :=
      fun k1 v1 k2 v2 h1 h2 => hc k1 v1 k2 v2 (List.mem_cons_of_mem _ h1) (List.mem_cons_of_mem _ h2)
    obtain ⟨k, ov⟩ := x
    cases ov with
    | none => simpa only [setFields] using ih hnd.2 hc' w
    | some v =>
      simp only [setFields]
      cases hs : A.SetField w.msg k v with
      | error err => rfl
      | ok m' => exact ih hnd.2 hc' _
  | swap x y l =>
    obtain ⟨kx, ox⟩ := x
    obtain ⟨ky, oy⟩ := y
    cases oy with
    | none =>
      cases ox with
      | none => simp only [setFields]
      | some vx => simp only [setFields]
    | some vy =>
      cases ox with
      | none => simp only [setFields]
      | some vx =>
        have hne : ky ≠ kx := by
          intro heq
          simp [heq] at hnd
        have hsw := hc ky vy kx vx (by simp) (by simp) hne w.msg
        simp only [setTwice] at hsw
        simp only [setFields]
        cases h1 : A.SetField w.msg ky vy with
        | error e1 =>
          cases h2 : A.SetField w.msg kx vx with
          | error e2 =>
            rw [h1, h2] at hsw
            simpa using hsw
          | ok m2 =>
            rw [h1, h2] at hsw
            simp only at hsw ⊢
            rw [← hsw]
        | ok m1 =>
          cases h2 : A.SetField w.msg kx vx with
          | error e2 =>
            rw [h1, h2] at hsw
            simp only at hsw ⊢
            rw [hsw]
          | ok m2 =>
            rw [h1, h2] at hsw
            simp only at hsw ⊢
            rw [hsw]
            cases A.SetField m2 ky vy <;> rfl
  | @trans l1 l2 l3 p1 _ ih1 ih2 =>
    rw [ih1 hnd hc w]
    apply ih2
    · exact (p1.map Prod.fst).nodup_iff.mp hnd
    · intro k1 v1 k2 v2 h1 h2
      exact hc k1 v1 k2 v2 (p1.mem_iff.mpr h1) (p1.mem_iff.mpr h2)

theorem visit_supplied (fn : String) (fs : List String) (kw : List (String × Value))
    (d : List Nat) (cells : List (Option Value)) (order : List String) (hnd : fs.Nodup)
    (hb : bindKeywords fn (fieldParams fs) kw [] (freshCells fs) = .ok (d, cells))
    (k : String) (v : Value) :
    (k, some v) ∈ rangeMap order (declareFields fs [] []).2 cells ↔ k ∈ order ∧ (k, v) ∈ kw := by
  have hdecl : ∀ k' ∈ kw.map Prod.fst, k' ∈ fs := by
    have := (bindKeywords_ok _ _ _ _ _ _ _ hb).1
    rw [fieldParams_names] at this
    exact fun k' hk' => (this k' hk').1
  rw [rangeMap_declared _ _ _ hnd, List.mem_filterMap]
  constructor
  · rintro ⟨a, ha, hg⟩
    by_cases hfs : a ∈ fs
    · simp only [hfs, if_true, Option.some.injEq, Prod.mk.injEq] at hg
      obtain ⟨rfl, hcell⟩ := hg
      exact ⟨ha, (cells_supplied fn fs kw d cells hb a hfs v).mp hcell⟩
    · simp [hfs] at hg
  · rintro ⟨ho, hk⟩
    have hfs : k ∈ fs := hdecl k (List.mem_map_of_mem Prod.fst hk)
    refine ⟨k, ho, ?_⟩
    rw [if_pos hfs, (cells_supplied fn fs kw d cells hb k hfs v).mpr hk]

theorem visit_keys_nodup (fs : List String) (cells : List (Option Value)) (order : List String)
    (hnd : fs.Nodup) (ho : order.Nodup) :
    ((rangeMap order (declareFields fs [] []).2 cells).map Prod.fst).Nodup := by
  rw [rangeMap_declared _ _ _ hnd, List.map_filterMap]
  apply List.Nodup.filterMap _ ho
  intro a a' b hb hb'
  by_cases h : a ∈ fs <;> by_cases h' : a' ∈ fs <;> simp_all

theorem Call_positional (A : FieldAdapter M) (mt : skyProtoMessageType M)
    (order : List String) (args : List Value) (kwargs : List (String × Value))
    (h : args ≠ []) :
    mt.Call A order args kwargs =
      (.error (.argument mt.Name (.arity args.length 0)), []) := by
  have hlen : 0 < args.length := List.length_pos.mpr h
  simp [skyProtoMessageType.Call, UnpackPositionalArgs, hlen]

/-! ## Construction: positional arguments -/

/-- C3: with a non-empty tuple of positional arguments, whatever the keyword
arguments, `Call` returns the argument error `<Name()>: got <n> arguments,
want 0` and no message, and has performed no step at all: no clone, no keyword
parsing, no `SetField`. -/
theorem Call_rejects_positional (A : FieldAdapter M) (mt : skyProtoMessageType M)
    (order : List String) (args : List Value) (kwargs : List (String × Value))
    (h : args ≠ []) :
    mt.Call A order args kwargs =
      (.error (.argument mt.Name (.arity args.length 0)), []) :=
  Call_positional A mt order args kwargs h

/-- C3 at `acme.Point` called with one positional argument and two keywords. -/
theorem Call_rejects_positional_witness :
    skyProtoMessageType.Call pointAdapter pointType ["x", "y"] [Value.int 1]
        [("x", Value.int 3), ("z", Value.int 5)] =
      (.error (.argument "acme.Point" (.arity 1 0)), []) :=
  Call_rejects_positional pointAdapter pointType ["x", "y"] [Value.int 1]
    [("x", Value.int 3), ("z", Value.int 5)] (by decide)

/-! ## Construction: keyword arguments -/

/-- C4, refuted as stated: for `acme.Point` called with `x` twice and then the
unknown keyword `z`, the error names `x`; no unknown keyword is mentioned. -/
theorem Call_unknown_keyword_counterexample :
    ¬ ∀ (order : List String) (kwargs : List (String × Value)),
      (∃ k ∈ kwargs.map Prod.fst, k ∉ pointAdapter.fields pointType.emptyMsg) →
      ∃ k ∈ kwargs.map Prod.fst, k ∉ pointAdapter.fields pointType.emptyMsg ∧
        ∃ fault, (pointType.Call pointAdapter order [] kwargs).1 =
          .error (.argument pointType.Name fault) ∧ fault.mentions k := by
  intro h
  obtain ⟨k, _, hnot, fault, hres, hm⟩ :=
    h ["x", "y"] [("x", Value.int 1), ("x", Value.int 2), ("z", Value.int 5)]
      ⟨"z", by decide, by decide⟩
  have hcall : (pointType.Call pointAdapter ["x", "y"] []
      [("x", Value.int 1), ("x", Value.int 2), ("z", Value.int 5)]).1 =
      .error (.argument "acme.Point" (.multipleValues "x")) := rfl
  rw [hcall] at hres
  simp only [Except.error.injEq, Error.argument.injEq] at hres
  rw [← hres.2] at hm
  simp only [ArgFault.mentions] at hm
  subst hm
  exact hnot (by decide)

theorem bindKeywords_repeat (fn : String) (ps : List Param) (k : String) (v : Value)
    (post : List (String × Value)) :
    ∀ (pre : List (String × Value)) (d : List Nat) (c : List (Option Value)),
      (∀ k' ∈ pre.map Prod.fst, k' ∈ ps.map Param.name ∧ (ps.map Param.name).indexOf k' ∉ d) →
      (pre.map Prod.fst).Nodup →
      (k ∈ pre.map Prod.fst ∨ (k ∈ ps.map Param.name ∧ (ps.map Param.name).indexOf k ∈ d)) →
      bindKeywords fn ps (pre ++ (k, v) :: post) d c =
        .error (.argument fn (.multipleValues k)) := by
  intro pre
  induction pre with
  | nil =>
    intro d c _ _ hk
    rcases hk with hk | ⟨hk, hd⟩
    · simp at hk
    · have hlt : (ps.map Param.name).indexOf k < ps.length := by
        simpa using List.indexOf_lt_length.mpr hk
      simp [bindKeywords, hlt, hd]
  | cons kv rest ih =>
    intro d c hd hnd hk
    obtain ⟨k0, v0⟩ := kv
    have h0 := hd k0 (by simp)
    have hlt : (ps.map Param.name).indexOf k0 < ps.length := by
      simpa using List.indexOf_lt_length.mpr h0.1
    simp only [List.map_cons, List.nodup_cons] at hnd
    simp only [List.cons_append, bindKeywords, hlt, if_true, h0.2, if_false]
    apply ih
    · intro k' hk'
      have h' := hd k' (by simp [hk'])
      refine ⟨h'.1, fun hmem => ?_⟩
      rcases List.mem_cons.mp hmem with heq | hmem
      · have := (List.indexOf_inj h'.1 h0.1).mp heq
        subst this
        exact hnd.1 hk'
      · exact h'.2 hmem
    · exact hnd.2
    · rcases hk with hk | ⟨hk, hin⟩
      · simp only [List.map_cons, List.mem_cons] at hk
        rcases hk with rfl | hk
        · exact Or.inr ⟨h0.1, List.mem_cons_self _ _⟩
        · exact Or.inl hk
      · exact Or.inr ⟨hk, List.mem_cons_of_mem _ hin⟩

theorem exists_first_unknown (fs : List String) :
    ∀ (kw : List (String × Value)), (∃ k ∈ kw.map Prod.fst, k ∉ fs) →
      ∃ pre k v post, kw = pre ++ (k, v) :: post ∧ (∀ k' ∈ pre.map Prod.fst, k' ∈ fs) ∧
        k ∉ fs := by
  intro kw
  induction kw with
  | nil => intro h; simp at h
  | cons kv rest ih =>
    intro h
    obtain ⟨k0, v0⟩ := kv
    by_cases h0 : k0 ∈ fs
    · have hrest : ∃ k ∈ rest.map Prod.fst, k ∉ fs := by
        obtain ⟨k, hk, hn⟩ := h
        simp only [List.map_cons, List.mem_cons] at hk
        rcases hk with rfl | hk
        · exact absurd h0 hn
        · exact ⟨k, hk, hn⟩
      obtain ⟨pre, k, v, post, hsplit, hdecl, hk⟩ := ih hrest
      refine ⟨(k0, v0) :: pre, k, v, post, by rw [hsplit]; rfl, ?_, hk⟩
      intro k' hk'
      simp only [List.map_cons, List.mem_cons] at hk'
      rcases hk' with rfl | hk'
      · exact h0
      · exact hdecl k' hk'
    · exact ⟨[], k0, v0, rest, rfl, by simp, h0⟩

theorem exists_first_repeat :
    ∀ (kw : List (String × Value)), ¬ (kw.map Prod.fst).Nodup →
      ∃ pre k v post, kw = pre ++ (k, v) :: post ∧ (pre.map Prod.fst).Nodup ∧
        k ∈ pre.map Prod.fst := by
  intro kw
  induction kw using List.reverseRecOn with
  | nil => intro h; simp at h
  | append_singleton init kv ih =>
    intro h
    by_cases hi : (init.map Prod.fst).Nodup
    · refine ⟨init, kv.1, kv.2, [], rfl, hi, ?_⟩
      by_contra hmem
      apply h
      rw [List.map_append, List.nodup_append]
      refine ⟨hi, by simp, ?_⟩
      intro a ha hb
      simp only [List.map_cons, List.map_nil, List.mem_singleton] at hb
      subst hb
      exact hmem ha
    · obtain ⟨pre, k, v, post, hsplit, hnd, hk⟩ := ih hi
      exact ⟨pre, k, v, post ++ [kv], by rw [hsplit]; simp, hnd, hk⟩

/-- C4, amended: when some keyword is not the original name of a declared
field, `Call` (with no positional arguments) returns an argument error for
`Name()` and no message, and performs the clone and the keyword parsing but
not a single `SetField`, valid keywords included. The error is fixed by the
first keyword of the list that is unknown or repeats an earlier keyword, all
keywords before it being declared and pairwise distinct (such a keyword
exists): if it is unknown the error is the unexpected-keyword error naming it,
and if it repeats an earlier keyword the error is the multiple-values error
naming it. In particular, when a declared keyword is given twice before the
first unknown keyword, the error is the multiple-values error naming a
declared keyword that occurs twice before the unknown one. -/
theorem Call_unknown_keyword (A : FieldAdapter M) (mt : skyProtoMessageType M)
    (order : List String) (kwargs : List (String × Value))
    (h : ∃ k ∈ kwargs.map Prod.fst, k ∉ A.fields mt.emptyMsg) :
    ∃ fault, mt.Call A order [] kwargs =
        (.error (.argument mt.Name fault), [Event.clone, Event.unpackArgs]) ∧
      ((∃ k, fault = .unexpectedKeyword k ∧ k ∈ kwargs.map Prod.fst ∧
          k ∉ A.fields mt.emptyMsg) ∨
       (∃ k, fault = .multipleValues k ∧ k ∈ A.fields mt.emptyMsg ∧
          2 ≤ (kwargs.map Prod.fst).count k)) ∧
      (∀ pre k v post, kwargs = pre ++ (k, v) :: post →
        (∀ k' ∈ pre.map Prod.fst, k' ∈ A.fields mt.emptyMsg) → (pre.map Prod.fst).Nodup →
        k ∉ A.fields mt.emptyMsg → fault = .unexpectedKeyword k) ∧
      (∀ pre k v post, kwargs = pre ++ (k, v) :: post →
        (∀ k' ∈ pre.map Prod.fst, k' ∈ A.fields mt.emptyMsg) → (pre.map Prod.fst).Nodup →
        k ∈ pre.map Prod.fst → fault = .multipleValues k) ∧
      (∃ pre k v post, kwargs = pre ++ (k, v) :: post ∧
        (∀ k' ∈ pre.map Prod.fst, k' ∈ A.fields mt.emptyMsg) ∧ (pre.map Prod.fst).Nodup ∧
        (k ∉ A.fields mt.emptyMsg ∨ k ∈ pre.map Prod.fst)) ∧
      (∀ pre z v post, kwargs = pre ++ (z, v) :: post →
        (∀ k' ∈ pre.map Prod.fst, k' ∈ A.fields mt.emptyMsg) → z ∉ A.fields mt.emptyMsg →
        ¬ (pre.map Prod.fst).Nodup →
        ∃ k, fault = .multipleValues k ∧ k ∈ A.fields mt.emptyMsg ∧
          2 ≤ (pre.map Prod.fst).count k) := by
  have hun : ∃ k ∈ kwargs.map Prod.fst,
      k ∉ (fieldParams (A.fields mt.emptyMsg)).map Param.name := by
    rw [fieldParams_names]; exact h
  obtain ⟨fault, hf, hcase⟩ := bindKeywords_unknown mt.Name (fieldParams (A.fields mt.emptyMsg))
    kwargs [] (freshCells (A.fields mt.emptyMsg)) hun
  rw [fieldParams_names] at hcase
  have hB : ∀ pre k v post, kwargs = pre ++ (k, v) :: post →
      (∀ k' ∈ pre.map Prod.fst, k' ∈ A.fields mt.emptyMsg) → (pre.map Prod.fst).Nodup →
      k ∈ pre.map Prod.fst → fault = .multipleValues k := by
    intro pre k v post hsplit hdecl hnd hk
    have hp := bindKeywords_repeat mt.Name (fieldParams (A.fields mt.emptyMsg)) k v post
      pre [] (freshCells (A.fields mt.emptyMsg))
      (fun k' hk' => ⟨by rw [fieldParams_names]; exact hdecl k' hk', by simp⟩) hnd (Or.inl hk)
    rw [← hsplit, hf] at hp
    simp only [Except.error.injEq, Error.argument.injEq, true_and] at hp
    exact hp
  refine ⟨fault, by rw [Call_keywords_only, hf], ?_, ?_, hB, ?_, ?_⟩
  · rcases hcase with ⟨k, h1, h2, h3⟩ | ⟨k, h1, _, h3, h4⟩
    · exact Or.inl ⟨k, h1, h2, h3⟩
    · refine Or.inr ⟨k, h1, h3, ?_⟩
      rcases h4 with h4 | h4
      · simp at h4
      · exact h4
  · intro pre k v post hsplit hdecl hnd hk
    have hp := bindKeywords_prefix mt.Name (fieldParams (A.fields mt.emptyMsg)) k v post
      (by rw [fieldParams_names]; exact hk) pre [] (freshCells (A.fields mt.emptyMsg))
      (fun k' hk' => ⟨by rw [fieldParams_names]; exact hdecl k' hk', by simp⟩) hnd
    rw [← hsplit, hf] at hp
    simp only [Except.error.injEq, Error.argument.injEq, true_and] at hp
    exact hp
  · obtain ⟨pre, z, v, post, hsplit, hdecl, hz⟩ := exists_first_unknown _ kwargs h
    by_cases hnd : (pre.map Prod.fst).Nodup
    · exact ⟨pre, z, v, post, hsplit, hdecl, hnd, Or.inl hz⟩
    · obtain ⟨p1, k, v', p2, hs2, hnd1, hk⟩ := exists_first_repeat pre hnd
      refine ⟨p1, k, v', p2 ++ (z, v) :: post, by rw [hsplit, hs2]; simp, ?_, hnd1, Or.inr hk⟩
      intro k' hk'
      exact hdecl k' (by rw [hs2]; simp [hk'])
  · intro pre z v post hsplit hdecl _ hnd
    obtain ⟨p1, k, v', p2, hs2, hnd1, hk⟩ := exists_first_repeat pre hnd
    have hdecl1 : ∀ k' ∈ p1.map Prod.fst, k' ∈ A.fields mt.emptyMsg :=
      fun k' hk' => hdecl k' (by rw [hs2]; simp [hk'])
    refine ⟨k, hB p1 k v' (p2 ++ (z, v) :: post) (by rw [hsplit, hs2]; simp) hdecl1 hnd1 hk,
      hdecl1 k hk, ?_⟩
    have h1 : 1 ≤ (p1.map Prod.fst).count k := List.count_pos_iff.mpr hk
    rw [hs2]
    simp only [List.map_append, List.map_cons, List.count_append, List.count_cons_self]
    omega

/-- C4 at `acme.Point`: called with `x` and the unknown keyword `z` the error
names `z`; called with `x` twice and then `z` it is the multiple-values error
naming `x`. -/
theorem Call_unknown_keyword_witness :
    (∃ fault, skyProtoMessageType.Call pointAdapter pointType ["x", "y"] []
        [("x", Value.int 3), ("z", Value.int 5)] =
        (.error (.argument "acme.Point" fault), [Event.clone, Event.unpackArgs]) ∧
      fault = .unexpectedKeyword "z") ∧
    (∃ fault, skyProtoMessageType.Call pointAdapter pointType ["x", "y"] []
        [("x", Value.int 1), ("x", Value.int 2), ("z", Value.int 5)] =
        (.error (.argument "acme.Point" fault), [Event.clone, Event.unpackArgs]) ∧
      fault = .multipleValues "x") := by
  constructor
  · obtain ⟨fault, h1, _, h3, _⟩ := Call_unknown_keyword pointAdapter pointType ["x", "y"]
      [("x", Value.int 3), ("z", Value.int 5)] ⟨"z", by decide, by decide⟩
    exact ⟨fault, h1, h3 [("x", Value.int 3)] "z" (Value.int 5) [] rfl (by decide) (by decide)
      (by decide)⟩
  · obtain ⟨fault, h1, _, _, h4, _⟩ := Call_unknown_keyword pointAdapter pointType ["x", "y"]
      [("x", Value.int 1), ("x", Value.int 2), ("z", Value.int 5)] ⟨"z", by decide, by decide⟩
    exact ⟨fault, h1, h4 [("x", Value.int 1)] "x" (Value.int 2) [("z", Value.int 5)] rfl
      (by decide) (by decide) (by decide)⟩

/-- C5: a successful `Call` without positional arguments has keywords that are
pairwise distinct declared field names, and after the clone and the keyword
parsing it performs exactly the `SetField` calls of the supplied keywords, each
once and with the supplied value, in the order the map is ranged over; the
returned message is the clone after these calls. Hence, for any reading of
fields that a `SetField` on another field preserves, every field that was not
supplied reads in the returned message as it does in the empty template. -/
theorem Call_sets_supplied_fields (A : FieldAdapter M) (mt : skyProtoMessageType M)
    (order : List String) (kwargs : List (String × Value)) (w : skyProtoMessage M)
    (tr : List Event) (horder : order.Perm (A.fields mt.emptyMsg))
    (hok : mt.Call A order [] kwargs = (.ok w, tr)) :
    (kwargs.map Prod.fst).Nodup ∧ (∀ k ∈ kwargs.map Prod.fst, k ∈ A.fields mt.emptyMsg) ∧
    ∃ calls, tr = Event.clone :: Event.unpackArgs :: calls ∧
      calls.Perm (kwargs.map (fun kv => Event.setField kv.1 kv.2)) ∧
      replay A calls (protoClone mt.emptyMsg) = .ok w.msg ∧
      ∀ (α : Type) (get : M → String → α),
        (∀ m f v m', A.SetField m f v = .ok m' → ∀ g, g ≠ f → get m' g = get m g) →
        ∀ g, g ∉ kwargs.map Prod.fst → get w.msg g = get mt.emptyMsg g := by
  have hnd := A.fields_nodup mt.emptyMsg
  rw [Call_keywords_only] at hok
  cases hb : bindKeywords mt.Name (fieldParams (A.fields mt.emptyMsg)) kwargs []
      (freshCells (A.fields mt.emptyMsg)) with
  | error err => rw [hb] at hok; simp at hok
  | ok r =>
    obtain ⟨d, cells⟩ := r
    rw [hb] at hok
    simp only [Prod.mk.injEq] at hok
    obtain ⟨hres, htr⟩ := hok
    obtain ⟨hk1, hk2, _⟩ := bindKeywords_ok _ _ _ _ _ _ _ hb
    rw [fieldParams_names] at hk1
    obtain ⟨ht, hrep, _⟩ := setFields_ok A _ _ _ hres
    have hvis := visit_supplied mt.Name _ kwargs d cells order hnd hb
    refine ⟨hk2, fun k hk => (hk1 k hk).1, _, htr.symm, ?_, by rw [ht]; exact hrep, ?_⟩
    · rw [ht]
      apply (List.perm_ext_iff_of_nodup _ _).mpr
      · intro e
        rw [List.mem_filterMap, List.mem_map]
        constructor
        · rintro ⟨⟨k, ov⟩, hmem, hcall⟩
          cases ov with
          | none => simp [callOf] at hcall
          | some v =>
            simp only [callOf, Option.map_some', Option.some.injEq] at hcall
            exact ⟨(k, v), ((hvis k v).mp hmem).2, hcall⟩
        · rintro ⟨⟨k, v⟩, hmem, rfl⟩
          refine ⟨(k, some v), (hvis k v).mpr ⟨?_, hmem⟩, rfl⟩
          exact horder.mem_iff.mpr (hk1 k (List.mem_map_of_mem Prod.fst hmem)).1
      · have hkeys := visit_keys_nodup _ cells order hnd (horder.nodup_iff.mpr hnd)
        have hvn := List.Nodup.of_map _ hkeys
        apply List.Nodup.filterMap _ hvn
        rintro ⟨k, ov⟩ ⟨k', ov'⟩ b hb1 hb2
        cases ov with
        | none => simp [callOf] at hb1
        | some v =>
          cases ov' with
          | none => simp [callOf] at hb2
          | some v' =>
            simp only [callOf, Option.map_some', Option.mem_def, Option.some.injEq] at hb1 hb2
            rw [← hb2] at hb1
            cases hb1
            rfl
      · apply List.Nodup.of_map (fun e => match e with | .setField k _ => k | _ => "")
        simpa [Function.comp_def] using hk2
    · intro α get hframe g hg
      have := setFields_frame A get hframe g _ _ _ hres (fun v hv => hg
        (List.mem_map_of_mem Prod.fst ((hvis g v).mp hv).2))
      simpa [newSkyProtoMessage] using this

/-- C5 at `acme.Point` called with `x` and `y`, the map ranged over as `y`, `x`. -/
theorem Call_sets_supplied_fields_witness :
    ∃ calls, [Event.clone, Event.unpackArgs, Event.setField "y" (Value.int 4),
        Event.setField "x" (Value.int 3)] = Event.clone :: Event.unpackArgs :: calls ∧
      calls.Perm [Event.setField "x" (Value.int 3), Event.setField "y" (Value.int 4)] ∧
      replay pointAdapter calls (protoClone pointType.emptyMsg) = .ok { x := 3, y := 4 } :=
  let ⟨_, _, calls, h1, h2, h3, _⟩ := Call_sets_supplied_fields pointAdapter pointType ["y", "x"]
    [("x", Value.int 3), ("y", Value.int 4)]
    { msg := { x := 3, y := 4 }, fields := ["x", "y"] }
    [Event.clone, Event.unpackArgs, Event.setField "y" (Value.int 4),
      Event.setField "x" (Value.int 3)]
    (by decide) rfl
  ⟨calls, h1, h2, h3⟩

/-- C6: when a `SetField` call that `Call` performs fails (the calls before it
having succeeded), that call is the last step of `Call`: no further `SetField`
follows, and `Call` returns exactly the error that `SetField` returned, hence
no message. -/
theorem Call_stops_at_first_failure (A : FieldAdapter M) (mt : skyProtoMessageType M)
    (order : List String) (args : List Value) (kwargs : List (String × Value))
    (pre post : List Event) (f : String) (v : Value) (m1 : M) (e : Error)
    (htrace : (mt.Call A order args kwargs).2 =
      Event.clone :: Event.unpackArgs :: (pre ++ Event.setField f v :: post))
    (hpre : replay A pre (protoClone mt.emptyMsg) = .ok m1)
    (hfail : A.SetField m1 f v = .error e) :
    post = [] ∧ (mt.Call A order args kwargs).1 = .error e := by
  cases args with
  | cons a rest =>
    rw [Call_positional A mt order (a :: rest) kwargs (by simp)] at htrace
    simp at htrace
  | nil =>
    rw [Call_keywords_only] at htrace ⊢
    cases hb : bindKeywords mt.Name (fieldParams (A.fields mt.emptyMsg)) kwargs []
        (freshCells (A.fields mt.emptyMsg)) with
    | error err =>
      rw [hb] at htrace
      simp at htrace
    | ok r =>
      obtain ⟨d, cells⟩ := r
      rw [hb] at htrace
      simp only [List.cons.injEq, true_and] at htrace
      exact setFields_first_failure A _ _ pre post f v m1 e htrace hpre hfail

/-- C6 at `acme.Point`: `y` is set, then the conversion of `x` fails. -/
theorem Call_stops_at_first_failure_witness :
    ([] : List Event) = [] ∧
    (skyProtoMessageType.Call pointAdapter pointType ["y", "x"] []
      [("x", Value.str "a"), ("y", Value.int 4)]).1 = .error (.external "x") :=
  Call_stops_at_first_failure pointAdapter pointType ["y", "x"] []
    [("x", Value.str "a"), ("y", Value.int 4)] [Event.setField "y" (Value.int 4)] []
    "x" (Value.str "a") { x := 0, y := 4 } (.external "x") rfl rfl rfl

/-- C7, refuted as stated: two executions of the same `Call` that range over
the map in different orders return different errors when two supplied values
both fail conversion, and different messages when the two supplied fields are
members of one oneof. -/
theorem Call_order_counterexample :
    (["x", "y"].Perm (pointAdapter.fields pointType.emptyMsg) ∧
      ["y", "x"].Perm (pointAdapter.fields pointType.emptyMsg) ∧
      (pointType.Call pointAdapter ["x", "y"] []
        [("x", Value.str "a"), ("y", Value.str "b")]).1 = .error (.external "x") ∧
      (pointType.Call pointAdapter ["y", "x"] []
        [("x", Value.str "a"), ("y", Value.str "b")]).1 = .error (.external "y") ∧
      (pointType.Call pointAdapter ["x", "y"] []
        [("x", Value.str "a"), ("y", Value.str "b")]).1 ≠
      (pointType.Call pointAdapter ["y", "x"] []
        [("x", Value.str "a"), ("y", Value.str "b")]).1) ∧
    (["circle", "square"].Perm (shapeAdapter.fields shapeType.emptyMsg) ∧
      ["square", "circle"].Perm (shapeAdapter.fields shapeType.emptyMsg) ∧
      (shapeType.Call shapeAdapter ["circle", "square"] []
        [("circle", Value.int 1), ("square", Value.int 2)]).1 =
        .ok { msg := { circle := none, square := some 2 }, fields := ["circle", "square"] } ∧
      (shapeType.Call shapeAdapter ["square", "circle"] []
        [("circle", Value.int 1), ("square", Value.int 2)]).1 =
        .ok { msg := { circle := some 1, square := none }, fields := ["circle", "square"] } ∧
      (shapeType.Call shapeAdapter ["circle", "square"] []
        [("circle", Value.int 1), ("square", Value.int 2)]).1 ≠
      (shapeType.Call shapeAdapter ["square", "circle"] []
        [("circle", Value.int 1), ("square", Value.int 2)]).1) := by
  refine ⟨⟨by decide, by decide, rfl, rfl, ?_⟩, ⟨by decide, by decide, rfl, rfl, ?_⟩⟩
  · intro h
    have h1 : (pointType.Call pointAdapter ["x", "y"] []
        [("x", Value.str "a"), ("y", Value.str "b")]).1 = .error (.external "x") := rfl
    have h2 : (pointType.Call pointAdapter ["y", "x"] []
        [("x", Value.str "a"), ("y", Value.str "b")]).1 = .error (.external "y") := rfl
    rw [h1, h2] at h
    simp only [Except.error.injEq, Error.external.injEq] at h
    exact absurd h (by decide)
  · intro h
    have h1 : (shapeType.Call shapeAdapter ["circle", "square"] []
        [("circle", Value.int 1), ("square", Value.int 2)]).1 =
        .ok { msg := { circle := none, square := some 2 }, fields := ["circle", "square"] } :=
      rfl
    have h2 : (shapeType.Call shapeAdapter ["square", "circle"] []
        [("circle", Value.int 1), ("square", Value.int 2)]).1 =
        .ok { msg := { circle := some 1, square := none }, fields := ["circle", "square"] } :=
      rfl
    rw [h1, h2] at h
    simp only [Except.ok.injEq, skyProtoMessage.mk.injEq, Shape.mk.injEq] at h
    exact absurd h.1.1 (by decide)

/-- C7, amended: `Call` is a function of the type object, the arguments and
the order in which the map is ranged over; and two executions that range over
the map in any two orders return the same outcome (the same error, or equal
messages) provided the `SetField` calls of any two supplied keywords commute:
made in either order from any message they give the same error or the same
message. -/
theorem Call_order_independent (A : FieldAdapter M) (mt : skyProtoMessageType M)
    (o1 o2 : List String) (args : List Value) (kwargs : List (String × Value))
    (h1 : o1.Perm (A.fields mt.emptyMsg)) (h2 : o2.Perm (A.fields mt.emptyMsg))
    (hc : ∀ k1 v1 k2 v2, (k1, v1) ∈ kwargs → (k2, v2) ∈ kwargs → k1 ≠ k2 →
      ∀ m, setTwice A m k1 v1 k2 v2 = setTwice A m k2 v2 k1 v1) :
    (mt.Call A o1 args kwargs).1 = (mt.Call A o2 args kwargs).1 := by
  have hnd := A.fields_nodup mt.emptyMsg
  cases args with
  | cons a rest =>
    rw [Call_positional A mt o1 (a :: rest) kwargs (by simp),
      Call_positional A mt o2 (a :: rest) kwargs (by simp)]
  | nil =>
    rw [Call_keywords_only, Call_keywords_only]
    cases hb : bindKeywords mt.Name (fieldParams (A.fields mt.emptyMsg)) kwargs []
        (freshCells (A.fields mt.emptyMsg)) with
    | error err => rfl
    | ok r =>
      obtain ⟨d, cells⟩ := r
      simp only
      apply setFields_perm A
      · rw [rangeMap_declared _ _ _ hnd, rangeMap_declared _ _ _ hnd]
        exact (h1.trans h2.symm).filterMap _
      · exact visit_keys_nodup _ cells o1 hnd (h1.nodup_iff.mpr hnd)
      · intro k1 v1 k2 v2 hm1 hm2
        exact hc k1 v1 k2 v2
          ((visit_supplied mt.Name _ kwargs d cells o1 hnd hb k1 v1).mp hm1).2
          ((visit_supplied mt.Name _ kwargs d cells o1 hnd hb k2 v2).mp hm2).2

/-- C7 at `acme.Point` with one failing value: both orders return the error for `y`. -/
theorem Call_order_independent_witness :
    (skyProtoMessageType.Call pointAdapter pointType ["x", "y"] []
      [("x", Value.int 3), ("y", Value.str "b")]).1 =
    (skyProtoMessageType.Call pointAdapter pointType ["y", "x"] []
      [("x", Value.int 3), ("y", Value.str "b")]).1 :=
  Call_order_independent pointAdapter pointType ["x", "y"] ["y", "x"] []
    [("x", Value.int 3), ("y", Value.str "b")] (by decide) (by decide)
    (by
      intro k1 v1 k2 v2 hm1 hm2 hne m
      simp only [List.mem_cons, Prod.mk.injEq, List.mem_singleton, List.not_mem_nil,
        or_false] at hm1 hm2
      rcases hm1 with ⟨rfl, rfl⟩ | ⟨rfl, rfl⟩ <;> rcases hm2 with ⟨rfl, rfl⟩ | ⟨rfl, rfl⟩
      · exact absurd rfl hne
      · rfl
      · rfl
      · exact absurd rfl hne)

end Skycfg
